import Mathlib

/-!
Shallow embedding of the block-segment scheduler from
`src/research/substate_task.go` (package `research`): range parsing,
transaction content filters, the per-block executor `ExecuteBlock`, the
worker counter updates, the coordinator loop of `ExecuteSegment` with its
`waitMap` ordered-completion bookkeeping, and the adaptive throughput
report condition.
-/

namespace SubstateResearch

/-! ## Range parser (`ParseBlockSegment`, lines 55-93) -/

/-- `BlockSegment{First, Last uint64}`; block numbers are `uint64`, embedded
as `Nat` with explicit `% 2^64` where Go arithmetic may wrap. -/
structure BlockSegment where
  First : Nat
  Last : Nat
deriving DecidableEq, Repr

/-- The three parse-failure kinds of `ParseBlockSegment`:
`invalid block segment string` (regex mismatch), `invalid block segment
first/last` (from `strconv.ParseUint`), and `block segment first is larger
than last`. -/
inductive ParseError where
  | invalidFormat
  | invalidNumber
  | rangeInverted
deriving DecidableEq, Repr

def isDigitChar (c : Char) : Bool := '0' ≤ c && c ≤ '9'

def isDigitOrUnderscore (c : Char) : Bool := isDigitChar c || c == '_'

/-- One `[0-9][0-9_]*` token of the segment regex: a digit followed by a
greedy run of digits and underscores; returns the token and the rest. -/
def takeNumToken : List Char → Option (List Char × List Char)
  | [] => none
  | c :: cs =>
    if isDigitChar c then
      let p := cs.span isDigitOrUnderscore
      some (c :: p.1, p.2)
    else none

/-- The capture groups of
`^(?P<first>[0-9][0-9_]*)((-|~)(?P<last>[0-9][0-9_]*)(?P<siunit>[kM]?))?$`.
When the optional part is absent, `last` and `siunit` are the empty
string, as Go's `FindStringSubmatch` reports absent groups. -/
structure SegMatch where
  first : List Char
  last : List Char
  siunit : List Char
deriving DecidableEq, Repr

/-- Deterministic matcher for the segment regex. The character classes of
`first`/`last` are disjoint from `-`, `~`, `k`, `M`, so greedy matching
coincides with the regex semantics. -/
def matchBlockSegment : List Char → Option SegMatch
  | s =>
    match takeNumToken s with
    | none => none
    | some (first, rest) =>
      match rest with
      | [] => some ⟨first, [], []⟩
      | c :: rest2 =>
        if c == '-' || c == '~' then
          match takeNumToken rest2 with
          | none => none
          | some (lastTok, rest3) =>
            match rest3 with
            | [] => some ⟨first, lastTok, []⟩
            | u :: rest4 =>
              if (u == 'k' || u == 'M') && rest4 == [] then
                some ⟨first, lastTok, [u]⟩
              else none
        else none

/-- `strings.ReplaceAll(s, "_", "")`. -/
def stripUnderscores (t : List Char) : List Char := t.filter (fun c => c != '_')

def digitsToNat (t : List Char) : Nat :=
  t.foldl (fun acc c => acc * 10 + (c.toNat - '0'.toNat)) 0

def UINT64_MOD : Nat := 2 ^ 64

/-- `strconv.ParseUint(s, 10, 64)` on a nonempty digit string: fails
exactly when the value overflows 64 bits. -/
def parseUint64 (t : List Char) : Option Nat :=
  if digitsToNat t < UINT64_MOD then some (digitsToNat t) else none

/-- The `switch siunit` scaling of lines 81-88: `k` maps `(f, l)` to
`(f*1000+1, l*1000)` and `M` to `(f*1000000+1, l*1000000)`, with `uint64`
wrap-around. -/
def applySiunit (siunit : List Char) (fv lv : Nat) : Nat × Nat :=
  match siunit with
  | ['k'] => ((fv * 1000 + 1) % UINT64_MOD, (lv * 1000) % UINT64_MOD)
  | ['M'] => ((fv * 1000000 + 1) % UINT64_MOD, (lv * 1000000) % UINT64_MOD)
  | _ => (fv, lv)

/-- Final stage of `ParseBlockSegment`: scale by the unit, then reject
inverted ranges (line 89). -/
def finishSegment (siunit : List Char) (fv lv : Nat) : Except ParseError BlockSegment :=
  if (applySiunit siunit fv lv).1 > (applySiunit siunit fv lv).2 then .error .rangeInverted
  else .ok ⟨(applySiunit siunit fv lv).1, (applySiunit siunit fv lv).2⟩

/-- `ParseBlockSegment` on the character list of the input string. -/
def ParseBlockSegmentChars (s : List Char) : Except ParseError BlockSegment :=
  match matchBlockSegment s with
  | none => .error .invalidFormat
  | some m =>
    match parseUint64 (stripUnderscores m.first) with
    | none => .error .invalidNumber
    | some fv =>
      if stripUnderscores m.last = [] then
        finishSegment m.siunit fv fv
      else
        match parseUint64 (stripUnderscores m.last) with
        | none => .error .invalidNumber
        | some lv => finishSegment m.siunit fv lv

def ParseBlockSegment (s : String) : Except ParseError BlockSegment :=
  ParseBlockSegmentChars s.data

/-- `strings.Split(s, ",")` for the single-character separator `,`. -/
def splitOnComma : List Char → List (List Char)
  | [] => [[]]
  | c :: cs =>
    if c == ',' then [] :: splitOnComma cs
    else
      match splitOnComma cs with
      | [] => [[c]]
      | g :: gs => (c :: g) :: gs

/-- The loop of `ParseBlockSegmentList` (lines 97-110): parse each piece
in order, returning the first error. -/
def parseSegments : List (List Char) → Except ParseError (List BlockSegment)
  | [] => .ok []
  | x :: rest =>
    match ParseBlockSegmentChars x with
    | .error e => .error e
    | .ok seg =>
      match parseSegments rest with
      | .error e => .error e
      | .ok segs => .ok (seg :: segs)

def ParseBlockSegmentList (s : String) : Except ParseError (List BlockSegment) :=
  parseSegments (splitOnComma s.data)

/-! ## Task pool data model (lines 112-158) -/

abbrev Address := Nat

/-- The part of a substate account relevant to the scheduler: its bytecode
(`account.Code`). -/
structure Account where
  Code : List Nat
deriving DecidableEq, Repr

/-- The part of `substate.Message` relevant to the scheduler: the optional
destination `To`. -/
structure Message where
  To : Option Address
deriving DecidableEq, Repr

/-- The part of a `Substate` read by `ExecuteBlock`: `InputAlloc` (a map
from address to account, embedded as an association list) and `Message`. -/
structure Substate where
  InputAlloc : List (Address × Account)
  Msg : Message
deriving DecidableEq, Repr

/-- Modelled from the spec: `SubstateDB.GetBlockSubstates` is not under
`src/`; §6 (Data Source) requires it to provide, for a block number, an
ordered sequence of `(transaction index, payload)` pairs, index order
being the canonical execution order. -/
def SubstateDB := Nat → List (Nat × Substate)

structure SubstateTaskConfig where
  Workers : Int
  SkipTransferTxs : Bool
  SkipCallTxs : Bool
  SkipCreateTxs : Bool
deriving DecidableEq, Repr

/-- The read-only view of the pool that the `*SubstateTaskPool` argument of
a `SubstateTaskFunc` exposes (the callback may re-enter the pool's name,
config and DB; it cannot re-enter the callback itself in this embedding). -/
structure PoolView where
  Name : String
  Config : SubstateTaskConfig
  DB : SubstateDB

/-- `SubstateTaskFunc`: the per-transaction callback; `none` is success,
`some msg` the error it returns. -/
def SubstateTaskFunc := Nat → Nat → Substate → PoolView → Option String

structure SubstateTaskPool where
  Name : String
  TaskFunc : SubstateTaskFunc
  Config : SubstateTaskConfig
  DB : SubstateDB

def SubstateTaskPool.view (pool : SubstateTaskPool) : PoolView :=
  ⟨pool.Name, pool.Config, pool.DB⟩

/-- The error produced at line 203:
`fmt.Errorf("%s: %v_%v: %v", pool.Name, block, tx, err)`. -/
structure TaskError where
  PoolName : String
  Block : Nat
  Tx : Nat
  Cause : String
deriving DecidableEq, Repr

/-! ## Content filters (lines 184-199) -/

/-- Inner condition of the `SkipTransferTxs` branch: the transaction has a
destination and `alloc[*to]` is absent or has empty code. -/
def skipTransferCond (s : Substate) : Bool :=
  match s.Msg.To with
  | none => false
  | some toAddr =>
    match s.InputAlloc.lookup toAddr with
    | none => true
    | some account => account.Code.length == 0

/-- Inner condition of the `SkipCallTxs` branch: the transaction has a
destination and `alloc[*to]` exists with nonempty code. -/
def skipCallCond (s : Substate) : Bool :=
  match s.Msg.To with
  | none => false
  | some toAddr =>
    match s.InputAlloc.lookup toAddr with
    | none => false
    | some account => decide (0 < account.Code.length)

/-- Inner condition of the `SkipCreateTxs` branch: `to == nil`. -/
def skipCreateCond (s : Substate) : Bool := s.Msg.To.isNone

/-- The three `continue` guards of lines 184-199 combined: a transaction is
skipped iff some enabled filter's condition holds; the sequential
`if ... continue` chain is exactly this disjunction. -/
def txSkipped (cfg : SubstateTaskConfig) (s : Substate) : Bool :=
  (cfg.SkipTransferTxs && skipTransferCond s) ||
  (cfg.SkipCallTxs && skipCallCond s) ||
  (cfg.SkipCreateTxs && skipCreateCond s)

/-- The three filters as first-class values, for stating order-invariance. -/
inductive FilterKind where
  | transfer
  | call
  | create
deriving DecidableEq, Repr

def filterCond (cfg : SubstateTaskConfig) (s : Substate) : FilterKind → Bool
  | .transfer => cfg.SkipTransferTxs && skipTransferCond s
  | .call => cfg.SkipCallTxs && skipCallCond s
  | .create => cfg.SkipCreateTxs && skipCreateCond s

/-- Apply a sequence of filters in the given order; the first matching one
skips the transaction. -/
def applyFilters (cfg : SubstateTaskConfig) (s : Substate) (order : List FilterKind) : Bool :=
  order.any (filterCond cfg s)

/-! ## `ExecuteBlock` (lines 178-210) -/

/-- The loop body of `ExecuteBlock`: iterate the block's `(tx, substate)`
pairs; skip filtered transactions; call `TaskFunc` on the rest; on error
return the current `numTx` and the wrapped error; on success count the
transaction and continue. The third component instruments the run with the
list of transaction indices on which the callback was invoked (in order,
including a failing one). -/
def execBlockLoop (pool : SubstateTaskPool) (block : Nat) (numTx : Nat) :
    List (Nat × Substate) → Nat × Option TaskError × List Nat
  | [] => (numTx, none, [])
  | (tx, substate) :: rest =>
    if txSkipped pool.Config substate then
      execBlockLoop pool block numTx rest
    else
      match pool.TaskFunc block tx substate pool.view with
      | some msg => (numTx, some ⟨pool.Name, block, tx, msg⟩, [tx])
      | none =>
        let r := execBlockLoop pool block (numTx + 1) rest
        (r.1, r.2.1, tx :: r.2.2)

/-- `ExecuteBlock`: the `(numTx, err)` result of the loop over
`pool.DB.GetBlockSubstates(block)`. -/
def ExecuteBlock (pool : SubstateTaskPool) (block : Nat) : Nat × Option TaskError :=
  let r := execBlockLoop pool block 0 (pool.DB block)
  (r.1, r.2.1)

/-- The instrumented list of transaction indices for which `ExecuteBlock`
invokes the callback. -/
def ExecuteBlockCalls (pool : SubstateTaskPool) (block : Nat) : List Nat :=
  (execBlockLoop pool block 0 (pool.DB block)).2.2

/-! ## Worker counter updates and completion messages (lines 264-281) -/

/-- The two shared counters `totalNumBlock` and `totalNumTx`. -/
structure Counters where
  totalNumBlock : Nat
  totalNumTx : Nat
deriving DecidableEq, Repr

/-- Lines 268-270: after `ExecuteBlock` returns, the worker performs
`atomic.AddInt64(&totalNumTx, nt)` and `atomic.AddInt64(&totalNumBlock, 1)`
unconditionally, before inspecting `err`. -/
def workerUpdate (pool : SubstateTaskPool) (c : Counters) (b : Nat) : Counters :=
  ⟨c.totalNumBlock + 1, c.totalNumTx + (ExecuteBlock pool b).1⟩

/-- Counters after a sequence of blocks has been processed by workers. -/
def segCounters (pool : SubstateTaskPool) (order : List Nat) : Counters :=
  order.foldl (workerUpdate pool) ⟨0, 0⟩

/-- A completion record on `doneChan`: the block number on success, the
error otherwise (lines 271-275). -/
inductive DoneMsg where
  | ok (block : Nat)
  | fail (e : TaskError)
deriving DecidableEq, Repr

/-- The completion record a worker pushes for block `b`. -/
def workerMsg (pool : SubstateTaskPool) (b : Nat) : DoneMsg :=
  match (ExecuteBlock pool b).2 with
  | some e => .fail e
  | none => .ok b

/-- The block numbers of the successful completions in a message list. -/
def okBlocks : List DoneMsg → List Nat
  | [] => []
  | .ok b :: rest => b :: okBlocks rest
  | .fail _ :: rest => okBlocks rest

/-! ## Coordinator loop of `ExecuteSegment` (lines 303-348) -/

/-- Outcome of the coordinator loop: `success` when the cursor passed
`segment.Last` (carrying the final cursor and `waitMap`), `failed` when an
error record was received, `stuck` when the loop is about to block on an
empty `doneChan` with no further completion ever arriving. -/
inductive CoordResult where
  | success (cursor : Nat) (waitMap : List Nat)
  | failed (e : TaskError) (cursor : Nat) (waitMap : List Nat)
  | stuck (cursor : Nat) (waitMap : List Nat)
deriving DecidableEq, Repr

/-- The coordinator loop (lines 307-348) with the channel receive replaced
by the list `msgs` of completion records in arrival order: while
`block ≤ segment.Last`, consume `block` from `waitMap` and advance if
present, otherwise receive the next record — a success inserts its block
number into `waitMap`, an error returns immediately. `waitMap` is a Go
`map[uint64]struct{}`, embedded as a duplicate-free insert list. -/
def coordSteps (last cursor : Nat) (wm : List Nat) (msgs : List DoneMsg) : CoordResult :=
  if last < cursor then .success cursor wm
  else if h : cursor ∈ wm then coordSteps last (cursor + 1) (wm.erase cursor) msgs
  else
    match msgs with
    | [] => .stuck cursor wm
    | .ok b :: rest => coordSteps last cursor (wm.insert b) rest
    | .fail e :: _rest => .failed e cursor wm
termination_by 2 * msgs.length + wm.length
decreasing_by
  · have hpos : 0 < wm.length := List.length_pos.mpr (List.ne_nil_of_mem h)
    have herase : (wm.erase cursor).length = wm.length - 1 := List.length_erase_of_mem h
    omega
  · have hins : (wm.insert b).length ≤ wm.length + 1 := by
      by_cases hb : b ∈ wm
      · rw [List.insert_of_mem hb]; omega
      · rw [List.insert_of_not_mem hb]; simp
    simp only [List.length_cons]
    omega

/-- The coordinator phase of `ExecuteSegment`, given the order in which
workers complete the blocks: the records on `doneChan` are the workers'
completion records in that order. -/
def ExecuteSegmentRun (pool : SubstateTaskPool) (segment : BlockSegment)
    (order : List Nat) : CoordResult :=
  coordSteps segment.Last segment.First [] (order.map (workerMsg pool))

/-! ## Adaptive throughput report condition (lines 317-332) -/

/-- The report condition of lines 319-324, with wall-clock seconds as
rationals: report when the cursor reached `segment.Last`, or on the
aligned-cursor/elapsed-time tiers, or unconditionally after 60s. -/
def shouldReport (last block : Nat) (sec lastSec : ℚ) : Bool :=
  (block == last) ||
  ((block % 10000 == 0) && decide (lastSec + 5 < sec)) ||
  ((block % 1000 == 0) && decide (lastSec + 10 < sec)) ||
  ((block % 100 == 0) && decide (lastSec + 20 < sec)) ||
  ((block % 10 == 0) && decide (lastSec + 40 < sec)) ||
  decide (lastSec + 60 < sec)

/-- The report condition as claim C8 words it: its first tier requires the
cursor to be a multiple of 10 (not 10,000) with more than 5s elapsed. -/
def shouldReportClaim (last block : Nat) (sec lastSec : ℚ) : Bool :=
  (block == last) ||
  ((block % 10 == 0) && decide (lastSec + 5 < sec)) ||
  ((block % 1000 == 0) && decide (lastSec + 10 < sec)) ||
  ((block % 100 == 0) && decide (lastSec + 20 < sec)) ||
  ((block % 10 == 0) && decide (lastSec + 40 < sec)) ||
  decide (lastSec + 60 < sec)

/-- The baseline of the previous report: `lastSec`, `lastNumBlock`,
`lastNumTx` (lines 304-305, reset at line 331). -/
structure ReportState where
  lastSec : ℚ
  lastNumBlock : Nat
  lastNumTx : Nat
deriving DecidableEq, Repr

/-- One emitted report: the deltas since the previous report from which
lines 326-327 compute the instantaneous rates. -/
structure ReportLine where
  deltaBlock : Nat
  deltaTx : Nat
  deltaSec : ℚ
deriving DecidableEq, Repr

/-- The reporting step the coordinator runs each time it is about to wait
on `doneChan` (lines 317-332): if the condition holds, emit the deltas
since the previous report and reset the baseline to the current values. -/
def reportStep (last block : Nat) (sec : ℚ) (nb nt : Nat) (st : ReportState) :
    ReportState × Option ReportLine :=
  if shouldReport last block sec st.lastSec then
    (⟨sec, nb, nt⟩, some ⟨nb - st.lastNumBlock, nt - st.lastNumTx, sec - st.lastSec⟩)
  else (st, none)

/-! ## Concrete instances used as witnesses and counterexamples -/

/-- A transaction with no destination (a CREATE transaction). -/
def createTx : Substate := ⟨[], ⟨none⟩⟩

/-- A transfer to address `7`, which has no code in the input alloc. -/
def transferTx : Substate := ⟨[(7, ⟨[]⟩)], ⟨some 7⟩⟩

/-- A CALL to address `7`, which has code `[1]` in the input alloc. -/
def callTx : Substate := ⟨[(7, ⟨[1]⟩)], ⟨some 7⟩⟩

/-- Pool whose callback always fails, over a DB with one transaction in
block 5; exhibits the unconditional counter update. -/
def c2Pool : SubstateTaskPool :=
  ⟨"c2", fun _ _ _ _ => some "boom", ⟨4, false, false, false⟩,
    fun b => if b == 5 then [(0, createTx)] else []⟩

/-- Pool whose callback fails exactly on transaction index 1, over a DB
with three transactions in block 9. -/
def c3Pool : SubstateTaskPool :=
  ⟨"c3", fun _ tx _ _ => if tx == 1 then some "boom" else none,
    ⟨4, false, false, false⟩,
    fun b => if b == 9 then [(0, createTx), (1, transferTx), (2, callTx)] else []⟩

/-- Pool with all three content filters enabled, over a DB with one
transaction of each shape in block 3. -/
def c10Pool : SubstateTaskPool :=
  ⟨"c10", fun _ _ _ _ => some "never reached", ⟨4, true, true, true⟩,
    fun b => if b == 3 then [(0, createTx), (1, transferTx), (2, callTx)] else []⟩

/-- Pool whose callback always succeeds, over a DB giving block `b` the
transactions `[(0, transferTx)]` for even `b` and
`[(0, createTx), (1, callTx)]` for odd `b`. -/
def c4Pool : SubstateTaskPool :=
  ⟨"c4", fun _ _ _ _ => none, ⟨4, false, false, false⟩,
    fun b => if b % 2 == 0 then [(0, transferTx)] else [(0, createTx), (1, callTx)]⟩

/-! ## Theorems about the range parser -/

theorem finishSegment_ok_le {siunit : List Char} {fv lv : Nat} {seg : BlockSegment}
    (h : finishSegment siunit fv lv = .ok seg) : seg.First ≤ seg.Last := by
  unfold finishSegment at h
  split at h
  · simp at h
  · next hle =>
    cases h
    exact Nat.le_of_not_lt hle

/-- C5: every accepted range string yields `First ≤ Last`; the four spec
examples parse to the stated intervals; and a unit suffix scales by
`first' = first*unit + 1`, `last' = last*unit` (absent overflow). -/
theorem parseBlockSegment_accepted_ordered :
    (∀ s seg, ParseBlockSegment s = .ok seg → seg.First ≤ seg.Last) ∧
    ParseBlockSegment "1001" = .ok ⟨1001, 1001⟩ ∧
    ParseBlockSegment "1_001-2_000" = .ok ⟨1001, 2000⟩ ∧
    ParseBlockSegment "1-2k" = .ok ⟨1001, 2000⟩ ∧
    ParseBlockSegment "1-2M" = .ok ⟨1000001, 2000000⟩ ∧
    (∀ fv lv, fv * 1000 + 1 < UINT64_MOD → lv * 1000 < UINT64_MOD →
      applySiunit ['k'] fv lv = (fv * 1000 + 1, lv * 1000)) ∧
    (∀ fv lv, fv * 1000000 + 1 < UINT64_MOD → lv * 1000000 < UINT64_MOD →
      applySiunit ['M'] fv lv = (fv * 1000000 + 1, lv * 1000000)) := by
  refine ⟨?_, rfl, rfl, rfl, rfl, ?_, ?_⟩
  · intro s seg h
    unfold ParseBlockSegment ParseBlockSegmentChars at h
    split at h
    · simp at h
    · split at h
      · simp at h
      · split at h
        · exact finishSegment_ok_le h
        · split at h
          · simp at h
          · exact finishSegment_ok_le h
  · intro fv lv h1 h2
    simp [applySiunit, Nat.mod_eq_of_lt h1, Nat.mod_eq_of_lt h2]
  · intro fv lv h1 h2
    simp [applySiunit, Nat.mod_eq_of_lt h1, Nat.mod_eq_of_lt h2]

theorem parseBlockSegment_accepted_ordered_witness :
    ParseBlockSegment "5" = .ok ⟨5, 5⟩ ∧
    (5 : Nat) ≤ 5 ∧
    applySiunit ['k'] 1 2 = (1001, 2000) :=
  ⟨rfl, parseBlockSegment_accepted_ordered.1 "5" ⟨5, 5⟩ rfl,
    parseBlockSegment_accepted_ordered.2.2.2.2.2.1 1 2 (by decide) (by decide)⟩

/-- C6: strings outside the grammar fail with `invalidFormat`; a numeric
component beyond 64 bits fails with `invalidNumber`; and when the scaled
`first` exceeds the scaled `last` the result is `rangeInverted`; the
`Except.error` result carries no interval. -/
theorem parseBlockSegment_error_kinds :
    (∀ s, matchBlockSegment s.data = none → ParseBlockSegment s = .error .invalidFormat) ∧
    ParseBlockSegment "abc" = .error .invalidFormat ∧
    (∀ t, parseUint64 t = none ↔ UINT64_MOD ≤ digitsToNat t) ∧
    (∀ s m, matchBlockSegment s.data = some m →
      parseUint64 (stripUnderscores m.first) = none →
      ParseBlockSegment s = .error .invalidNumber) ∧
    (∀ s m fv, matchBlockSegment s.data = some m →
      parseUint64 (stripUnderscores m.first) = some fv →
      stripUnderscores m.last ≠ [] →
      parseUint64 (stripUnderscores m.last) = none →
      ParseBlockSegment s = .error .invalidNumber) ∧
    ParseBlockSegment "99999999999999999999" = .error .invalidNumber ∧
    (∀ siunit fv lv, (applySiunit siunit fv lv).2 < (applySiunit siunit fv lv).1 →
      finishSegment siunit fv lv = .error .rangeInverted) ∧
    (∀ s m fv lv, matchBlockSegment s.data = some m →
      parseUint64 (stripUnderscores m.first) = some fv →
      stripUnderscores m.last ≠ [] →
      parseUint64 (stripUnderscores m.last) = some lv →
      (applySiunit m.siunit fv lv).2 < (applySiunit m.siunit fv lv).1 →
      ParseBlockSegment s = .error .rangeInverted) ∧
    ParseBlockSegment "5-1" = .error .rangeInverted := by
  refine ⟨?_, rfl, ?_, ?_, ?_, rfl, ?_, ?_, rfl⟩
  · intro s hm
    simp [ParseBlockSegment, ParseBlockSegmentChars, hm]
  · intro t
    unfold parseUint64
    split
    · next hlt => simp; omega
    · next hlt => simp; omega
  · intro s m hm hf
    simp [ParseBlockSegment, ParseBlockSegmentChars, hm, hf]
  · intro s m fv hm hf hne hl
    simp [ParseBlockSegment, ParseBlockSegmentChars, hm, hf, hne, hl]
  · intro siunit fv lv hgt
    unfold finishSegment
    rw [if_pos hgt]
  · intro s m fv lv hm hf hne hl hgt
    have hfin : finishSegment m.siunit fv lv = .error .rangeInverted := by
      unfold finishSegment
      rw [if_pos hgt]
    simp [ParseBlockSegment, ParseBlockSegmentChars, hm, hf, hne, hl, hfin]

theorem parseBlockSegment_error_kinds_witness :
    ParseBlockSegment "xyz" = .error .invalidFormat ∧
    finishSegment [] 7 3 = .error .rangeInverted :=
  ⟨parseBlockSegment_error_kinds.1 "xyz" rfl,
    parseBlockSegment_error_kinds.2.2.2.2.2.2.1 [] 7 3 (by decide)⟩

theorem parseSegments_ok_map {l : List (List Char)} :
    ∀ {out : List BlockSegment}, parseSegments l = .ok out →
      l.map ParseBlockSegmentChars = out.map Except.ok := by
  induction l with
  | nil =>
    intro out h
    simp only [parseSegments] at h
    cases h
    rfl
  | cons x rest ih =>
    intro out h
    simp only [parseSegments] at h
    cases hx : ParseBlockSegmentChars x with
    | error e => rw [hx] at h; simp at h
    | ok seg =>
      rw [hx] at h
      cases hr : parseSegments rest with
      | error e => rw [hr] at h; simp at h
      | ok segs =>
        rw [hr] at h
        cases h
        simp [hx, ih hr]

theorem parseSegments_map_ok {l : List (List Char)} :
    ∀ {out : List BlockSegment}, l.map ParseBlockSegmentChars = out.map Except.ok →
      parseSegments l = .ok out := by
  induction l with
  | nil =>
    intro out h
    have : out = [] := by
      cases out
      · rfl
      · simp at h
    subst this
    rfl
  | cons x rest ih =>
    intro out h
    cases out with
    | nil => simp at h
    | cons o os =>
      simp only [List.map_cons, List.cons.injEq] at h
      obtain ⟨h1, h2⟩ := h
      simp [parseSegments, h1, ih h2]

/-- C9: the list parser splits on `,`, parses each piece independently in
input order, propagates the first error, and on success returns one
interval per piece in input order. -/
theorem parseBlockSegmentList_spec :
    (∀ s, ParseBlockSegmentList s = parseSegments (splitOnComma s.data)) ∧
    (∀ (l : List (List Char)) (out : List BlockSegment),
      parseSegments l = .ok out ↔ l.map ParseBlockSegmentChars = out.map Except.ok) ∧
    (∀ (pre : List (List Char)) (p : List Char) (post : List (List Char)) (e : ParseError),
      (∀ x ∈ pre, ∃ sg, ParseBlockSegmentChars x = .ok sg) →
      ParseBlockSegmentChars p = .error e →
      parseSegments (pre ++ p :: post) = .error e) := by
  refine ⟨fun _ => rfl, fun l out => ⟨parseSegments_ok_map, parseSegments_map_ok⟩, ?_⟩
  intro pre p post e hpre hp
  induction pre with
  | nil => simp [parseSegments, hp]
  | cons x pre' ih =>
    obtain ⟨sg, hsg⟩ := hpre x (by simp)
    have hrec := ih (fun y hy => hpre y (by simp [hy]))
    simp [parseSegments, hsg, hrec]

theorem parseBlockSegmentList_spec_witness :
    parseSegments [['1'], ['a'], ['2']] = .error .invalidFormat ∧
    ParseBlockSegmentList "1001,2-3" = .ok [⟨1001, 1001⟩, ⟨2, 3⟩] :=
  ⟨parseBlockSegmentList_spec.2.2 [['1']] ['a'] [['2']] .invalidFormat
      (by intro x hx; simp at hx; subst hx; exact ⟨⟨1, 1⟩, rfl⟩) rfl,
    ((parseBlockSegmentList_spec.2.1 (splitOnComma "1001,2-3".data)
      [⟨1001, 1001⟩, ⟨2, 3⟩]).mpr rfl)⟩

/-! ## Theorems about the content filters and `ExecuteBlock` -/

theorem skip_conds_pairwise_disjoint (s : Substate) :
    (skipTransferCond s && skipCallCond s) = false ∧
    (skipTransferCond s && skipCreateCond s) = false ∧
    (skipCallCond s && skipCreateCond s) = false := by
  unfold skipTransferCond skipCallCond skipCreateCond
  cases hTo : s.Msg.To with
  | none => simp [hTo]
  | some toAddr =>
    simp only [hTo]
    cases hl : s.InputAlloc.lookup toAddr with
    | none => simp [hl]
    | some account =>
      obtain ⟨code⟩ := account
      simp only [hl]
      cases code with
      | nil => simp
      | cons c cs => simp

/-- C7: applying the three content filters in the code's fixed order gives
the same skip decision as applying them in any other order, and the three
underlying skip conditions are pairwise disjoint. -/
theorem filters_order_invariant (cfg : SubstateTaskConfig) (s : Substate)
    (order : List FilterKind)
    (hperm : order.Perm [.transfer, .call, .create]) :
    applyFilters cfg s order = txSkipped cfg s ∧
    (skipTransferCond s && skipCallCond s) = false ∧
    (skipTransferCond s && skipCreateCond s) = false ∧
    (skipCallCond s && skipCreateCond s) = false := by
  refine ⟨?_, skip_conds_pairwise_disjoint s⟩
  have hmem : ∀ f : FilterKind, f ∈ order ↔ f ∈ [FilterKind.transfer, .call, .create] :=
    fun f => hperm.mem_iff
  have hcanon : applyFilters cfg s [FilterKind.transfer, .call, .create] = txSkipped cfg s := by
    simp [applyFilters, txSkipped, filterCond, List.any, Bool.or_assoc]
  rw [← hcanon]
  unfold applyFilters
  cases hb : ([FilterKind.transfer, .call, .create].any (filterCond cfg s)) with
  | true =>
    obtain ⟨f, hf, hcond⟩ := List.any_eq_true.mp hb
    exact List.any_eq_true.mpr ⟨f, (hmem f).mpr hf, hcond⟩
  | false =>
    refine (Bool.eq_false_iff.mpr ?_)
    intro hcontra
    obtain ⟨f, hf, hcond⟩ := List.any_eq_true.mp hcontra
    have : [FilterKind.transfer, .call, .create].any (filterCond cfg s) = true :=
      List.any_eq_true.mpr ⟨f, (hmem f).mp hf, hcond⟩
    rw [hb] at this
    cases this

theorem filters_order_invariant_witness :
    applyFilters ⟨4, true, false, true⟩ transferTx [.call, .create, .transfer] =
      txSkipped ⟨4, true, false, true⟩ transferTx :=
  (filters_order_invariant ⟨4, true, false, true⟩ transferTx
    [.call, .create, .transfer] (by decide)).1

theorem txSkipped_of_all_filters {cfg : SubstateTaskConfig}
    (h1 : cfg.SkipTransferTxs = true) (h2 : cfg.SkipCallTxs = true)
    (h3 : cfg.SkipCreateTxs = true) (s : Substate) : txSkipped cfg s = true := by
  unfold txSkipped skipTransferCond skipCallCond skipCreateCond
  rw [h1, h2, h3]
  cases hTo : s.Msg.To with
  | none => simp [hTo]
  | some toAddr =>
    simp only [hTo]
    cases hl : s.InputAlloc.lookup toAddr with
    | none => simp [hl]
    | some account =>
      obtain ⟨code⟩ := account
      simp only [hl]
      cases code with
      | nil => simp
      | cons c cs => simp

theorem execBlockLoop_all_skip (pool : SubstateTaskPool) (block : Nat)
    (hall : ∀ s, txSkipped pool.Config s = true) :
    ∀ (txs : List (Nat × Substate)) (numTx : Nat),
      execBlockLoop pool block numTx txs = (numTx, none, []) := by
  intro txs
  induction txs with
  | nil => intro numTx; rfl
  | cons p rest ih =>
    intro numTx
    obtain ⟨tx, substate⟩ := p
    simp only [execBlockLoop, hall substate, if_true]
    exact ih numTx

/-- C10: with all three content filters enabled the skip conditions are
jointly exhaustive, so `ExecuteBlock` skips every transaction, invokes the
callback on none of them, and returns count 0 with no error. -/
theorem executeBlock_all_filters_skips_everything (pool : SubstateTaskPool) (block : Nat)
    (h1 : pool.Config.SkipTransferTxs = true) (h2 : pool.Config.SkipCallTxs = true)
    (h3 : pool.Config.SkipCreateTxs = true) :
    (∀ s, txSkipped pool.Config s = true) ∧
    ExecuteBlock pool block = (0, none) ∧
    ExecuteBlockCalls pool block = [] := by
  have hall : ∀ s, txSkipped pool.Config s = true := txSkipped_of_all_filters h1 h2 h3
  refine ⟨hall, ?_, ?_⟩
  · unfold ExecuteBlock
    rw [execBlockLoop_all_skip pool block hall (pool.DB block) 0]
  · unfold ExecuteBlockCalls
    rw [execBlockLoop_all_skip pool block hall (pool.DB block) 0]

theorem executeBlock_all_filters_skips_everything_witness :
    ExecuteBlock c10Pool 3 = (0, none) ∧ ExecuteBlockCalls c10Pool 3 = [] :=
  ⟨(executeBlock_all_filters_skips_everything c10Pool 3 rfl rfl rfl).2.1,
    (executeBlock_all_filters_skips_everything c10Pool 3 rfl rfl rfl).2.2⟩

theorem execBlockLoop_first_error (pool : SubstateTaskPool) (block : Nat)
    (i : Nat) (s : Substate) (post : List (Nat × Substate)) (emsg : String)
    (hskip : txSkipped pool.Config s = false)
    (herr : pool.TaskFunc block i s pool.view = some emsg) :
    ∀ (pre : List (Nat × Substate)) (numTx : Nat),
      (∀ p ∈ pre, txSkipped pool.Config p.2 = true ∨
        pool.TaskFunc block p.1 p.2 pool.view = none) →
      execBlockLoop pool block numTx (pre ++ (i, s) :: post) =
        (numTx + (pre.filter (fun p => !txSkipped pool.Config p.2)).length,
          some ⟨pool.Name, block, i, emsg⟩,
          (pre.filter (fun p => !txSkipped pool.Config p.2)).map Prod.fst ++ [i]) := by
  intro pre
  induction pre with
  | nil =>
    intro numTx _
    simp only [List.nil_append, execBlockLoop, hskip, Bool.false_eq_true, if_false, herr,
      List.filter_nil, List.length_nil, Nat.add_zero, List.map_nil, List.nil_append]
  | cons p rest ih =>
    intro numTx hpre
    obtain ⟨tx, substate⟩ := p
    by_cases hsk : txSkipped pool.Config substate = true
    · simp only [List.cons_append, execBlockLoop, hsk, if_true, List.append_eq]
      rw [ih numTx (fun q hq => hpre q (by simp [hq]))]
      simp [List.filter_cons, hsk]
    · have hok : pool.TaskFunc block tx substate pool.view = none := by
        rcases hpre (tx, substate) (by simp) with h | h
        · exact absurd h hsk
        · exact h
      have hskf : txSkipped pool.Config substate = false := by
        simpa using hsk
      simp only [List.cons_append, execBlockLoop, hskf, Bool.false_eq_true, if_false, hok,
        List.append_eq]
      rw [ih (numTx + 1) (fun q hq => hpre q (by simp [hq]))]
      simp only [List.filter_cons, hskf, Bool.not_false, if_true, List.length_cons,
        List.map_cons, List.cons_append, Prod.mk.injEq]
      refine ⟨by omega, by simp⟩

/-- C3: when the callback first fails at transaction index `i` of a block
(all earlier transactions being skipped or successful), `ExecuteBlock`
stops there — the callback is invoked only on the earlier non-skipped
indices and on `i`, never on anything after `i` — returns the error
wrapped with the pool name, block number and transaction index, and
returns the count of transactions already processed in that block. -/
theorem executeBlock_error_wraps_and_stops
    (pool : SubstateTaskPool) (block : Nat) (pre post : List (Nat × Substate))
    (i : Nat) (s : Substate) (emsg : String)
    (hdb : pool.DB block = pre ++ (i, s) :: post)
    (hpre : ∀ p ∈ pre, txSkipped pool.Config p.2 = true ∨
      pool.TaskFunc block p.1 p.2 pool.view = none)
    (hskip : txSkipped pool.Config s = false)
    (herr : pool.TaskFunc block i s pool.view = some emsg) :
    ExecuteBlock pool block =
      ((pre.filter (fun p => !txSkipped pool.Config p.2)).length,
        some ⟨pool.Name, block, i, emsg⟩) ∧
    ExecuteBlockCalls pool block =
      (pre.filter (fun p => !txSkipped pool.Config p.2)).map Prod.fst ++ [i] ∧
    (∀ j ∈ ExecuteBlockCalls pool block, j ∈ pre.map Prod.fst ∨ j = i) := by
  have hloop := execBlockLoop_first_error pool block i s post emsg hskip herr pre 0 hpre
  have h1 : ExecuteBlock pool block =
      ((pre.filter (fun p => !txSkipped pool.Config p.2)).length,
        some ⟨pool.Name, block, i, emsg⟩) := by
    unfold ExecuteBlock
    rw [hdb, hloop]
    simp
  have h2 : ExecuteBlockCalls pool block =
      (pre.filter (fun p => !txSkipped pool.Config p.2)).map Prod.fst ++ [i] := by
    unfold ExecuteBlockCalls
    rw [hdb, hloop]
  refine ⟨h1, h2, ?_⟩
  intro j hj
  rw [h2] at hj
  rcases List.mem_append.mp hj with hjf | hji
  · left
    obtain ⟨p, hp, rfl⟩ := List.mem_map.mp hjf
    exact List.mem_map.mpr ⟨p, List.mem_of_mem_filter hp, rfl⟩
  · right
    simpa using hji

theorem executeBlock_error_wraps_and_stops_witness :
    ExecuteBlock c3Pool 9 = (1, some ⟨"c3", 9, 1, "boom"⟩) ∧
    ExecuteBlockCalls c3Pool 9 = [0, 1] ∧
    (∀ j ∈ ExecuteBlockCalls c3Pool 9, j ∈ [(0, createTx)].map Prod.fst ∨ j = 1) := by
  have h := executeBlock_error_wraps_and_stops c3Pool 9 [(0, createTx)] [(2, callTx)]
    1 transferTx "boom" rfl
    (by intro p hp; simp at hp; subst hp; right; rfl) rfl rfl
  exact ⟨h.1, h.2.1, h.2.2⟩

/-- C2 counterexample: for `c2Pool` and block 5, `ExecuteBlock` returns an
error, yet the worker's counter update (lines 269-270) still changes the
counters — `totalNumBlock` is incremented — contradicting the claim that
neither counter changes when `ExecuteBlock` fails. -/
theorem workerUpdate_changes_counters_on_error :
    (ExecuteBlock c2Pool 5).2.isSome = true ∧
    workerUpdate c2Pool ⟨0, 0⟩ 5 ≠ (⟨0, 0⟩ : Counters) := by
  refine ⟨rfl, ?_⟩
  intro h
  have : (1 : Nat) = 0 := congrArg Counters.totalNumBlock h
  cases this

theorem segCounters_foldl (pool : SubstateTaskPool) (order : List Nat) :
    ∀ c : Counters, order.foldl (workerUpdate pool) c =
      ⟨c.totalNumBlock + order.length,
        c.totalNumTx + (order.map (fun b => (ExecuteBlock pool b).1)).sum⟩ := by
  induction order with
  | nil => intro c; simp
  | cons b rest ih =>
    intro c
    simp only [List.foldl_cons, ih, workerUpdate, List.length_cons, List.map_cons, List.sum_cons]
    refine congrArg₂ Counters.mk (by omega) (by omega)

/-- C2 amended: the worker updates both shared counters unconditionally
after `ExecuteBlock` returns — `totalNumBlock` by one and `totalNumTx` by
the returned (possibly partial) transaction count — whether or not the
block failed; over any completion sequence the counters are the block
count and the sum of the per-block returned counts. -/
theorem counters_incremented_unconditionally :
    (∀ (pool : SubstateTaskPool) (c : Counters) (b : Nat),
      workerUpdate pool c b = ⟨c.totalNumBlock + 1, c.totalNumTx + (ExecuteBlock pool b).1⟩) ∧
    (∀ (pool : SubstateTaskPool) (order : List Nat),
      segCounters pool order =
        ⟨order.length, (order.map (fun b => (ExecuteBlock pool b).1)).sum⟩) := by
  refine ⟨fun pool c b => rfl, fun pool order => ?_⟩
  unfold segCounters
  rw [segCounters_foldl]
  simp

/-! ## Theorems about the coordinator loop -/

theorem mem_range'_iff {s n m : Nat} : m ∈ List.range' s n ↔ s ≤ m ∧ m < s + n := by
  rw [List.mem_range']
  constructor
  · rintro ⟨i, hi, rfl⟩
    omega
  · rintro ⟨h1, h2⟩
    exact ⟨m - s, by omega, by omega⟩

theorem okBlocks_map_ok (bs : List Nat) : okBlocks (bs.map .ok) = bs := by
  induction bs with
  | nil => rfl
  | cons b rest ih => simp [okBlocks, ih]

theorem coordSteps_exit {last cursor : Nat} (wm : List Nat) (msgs : List DoneMsg)
    (h : last < cursor) : coordSteps last cursor wm msgs = .success cursor wm := by
  rw [coordSteps.eq_def, if_pos h]

theorem coordSteps_drain {last cursor : Nat} {wm : List Nat} (msgs : List DoneMsg)
    (h1 : ¬ last < cursor) (h2 : cursor ∈ wm) :
    coordSteps last cursor wm msgs = coordSteps last (cursor + 1) (wm.erase cursor) msgs := by
  rw [coordSteps.eq_def, if_neg h1, dif_pos h2]

theorem coordSteps_empty {last cursor : Nat} {wm : List Nat}
    (h1 : ¬ last < cursor) (h2 : cursor ∉ wm) :
    coordSteps last cursor wm [] = .stuck cursor wm := by
  rw [coordSteps.eq_def, if_neg h1, dif_neg h2]

theorem coordSteps_ok {last cursor : Nat} {wm : List Nat}
    (h1 : ¬ last < cursor) (h2 : cursor ∉ wm) (b : Nat) (rest : List DoneMsg) :
    coordSteps last cursor wm (.ok b :: rest) = coordSteps last cursor (wm.insert b) rest := by
  rw [coordSteps.eq_def, if_neg h1, dif_neg h2]

theorem coordSteps_fail {last cursor : Nat} {wm : List Nat}
    (h1 : ¬ last < cursor) (h2 : cursor ∉ wm) (e : TaskError) (rest : List DoneMsg) :
    coordSteps last cursor wm (.fail e :: rest) = .failed e cursor wm := by
  rw [coordSteps.eq_def, if_neg h1, dif_neg h2]

/-- Master invariant of the coordinator loop: from state `(cursor, wm)`
with pending records `msgs` (no block delivered twice), the loop consumes
some prefix of `k` records and stops at `(c', wm')` such that the interval
`[cursor, c')` together with the final `waitMap` is a permutation of the
initial `waitMap` plus the successful completions consumed — every cursor
position passed was delivered, and nothing delivered is lost. -/
theorem coordSteps_run (last : Nat) :
    ∀ (cursor : Nat) (wm : List Nat) (msgs : List DoneMsg),
      (wm ++ okBlocks msgs).Nodup →
      ∃ c' wm' k,
        k ≤ msgs.length ∧ cursor ≤ c' ∧ c' ≤ max cursor (last + 1) ∧
        (List.range' cursor (c' - cursor) ++ wm').Perm (wm ++ okBlocks (msgs.take k)) ∧
        ((coordSteps last cursor wm msgs = .success c' wm' ∧ last < c') ∨
         (coordSteps last cursor wm msgs = .stuck c' wm' ∧ k = msgs.length ∧
           c' ≤ last ∧ c' ∉ wm') ∨
         (∃ e, coordSteps last cursor wm msgs = .failed e c' wm' ∧ c' ≤ last ∧
           c' ∉ wm' ∧ .fail e ∈ msgs)) := by
  intro cursor wm msgs
  induction cursor, wm, msgs using coordSteps.induct last with
  | case1 cursor wm msgs hlt =>
    intro _
    refine ⟨cursor, wm, 0, Nat.zero_le _, Nat.le_refl _, Nat.le_max_left _ _, ?_,
      Or.inl ⟨coordSteps_exit wm msgs hlt, hlt⟩⟩
    simp [okBlocks]
  | case2 cursor wm msgs hnlt hmem ih =>
    intro hnd
    have hsub : (wm.erase cursor ++ okBlocks msgs).Sublist (wm ++ okBlocks msgs) :=
      (List.erase_sublist cursor wm).append_right _
    obtain ⟨c', wm', k, hk, hle, hmax, hperm, hexit⟩ := ih (hsub.nodup hnd)
    refine ⟨c', wm', k, hk, by omega, by omega, ?_, ?_⟩
    · have hrange : List.range' cursor (c' - cursor) =
          cursor :: List.range' (cursor + 1) (c' - (cursor + 1)) := by
        have hn : c' - cursor = (c' - (cursor + 1)) + 1 := by omega
        rw [hn, List.range'_succ]
      have hsplit : List.range' cursor (c' - cursor) ++ wm' =
          cursor :: (List.range' (cursor + 1) (c' - (cursor + 1)) ++ wm') := by
        rw [hrange]
        rfl
      rw [hsplit]
      refine List.Perm.trans (List.Perm.cons cursor hperm) ?_
      exact ((List.perm_cons_erase hmem).symm).append_right _
    · have hstep := @coordSteps_drain last cursor wm msgs hnlt hmem
      rcases hexit with ⟨heq, h⟩ | ⟨heq, hk2, hc1, hc2⟩ | ⟨e, heq, hc1, hc2, hin⟩
      · exact Or.inl ⟨hstep.trans heq, h⟩
      · exact Or.inr (Or.inl ⟨hstep.trans heq, hk2, hc1, hc2⟩)
      · exact Or.inr (Or.inr ⟨e, hstep.trans heq, hc1, hc2, hin⟩)
  | case3 cursor wm hnlt hnmem =>
    intro _
    refine ⟨cursor, wm, 0, Nat.le_refl _, Nat.le_refl _, Nat.le_max_left _ _, ?_,
      Or.inr (Or.inl ⟨coordSteps_empty hnlt hnmem, rfl, by omega, hnmem⟩)⟩
    simp [okBlocks]
  | case4 cursor wm hnlt hnmem b rest ih =>
    intro hnd
    rw [List.nodup_append] at hnd
    obtain ⟨hwm, hcons, hdisj⟩ := hnd
    have hbwm : b ∉ wm := fun hb => hdisj hb (by simp [okBlocks])
    have hbok : b ∉ okBlocks rest := by
      have := hcons
      simp only [okBlocks, List.nodup_cons] at this
      exact this.1
    have hokn : (okBlocks rest).Nodup := by
      have := hcons
      simp only [okBlocks, List.nodup_cons] at this
      exact this.2
    have hnd' : ((wm.insert b) ++ okBlocks rest).Nodup := by
      rw [List.insert_of_not_mem hbwm, List.cons_append, List.nodup_cons]
      refine ⟨?_, ?_⟩
      · intro hb
        rcases List.mem_append.mp hb with h | h
        · exact hbwm h
        · exact hbok h
      · rw [List.nodup_append]
        exact ⟨hwm, hokn,
          fun a ha hb => hdisj ha (by simp only [okBlocks, List.mem_cons]; exact Or.inr hb)⟩
    obtain ⟨c', wm', k, hk, hle, hmax, hperm, hexit⟩ := ih hnd'
    refine ⟨c', wm', k + 1, by simpa using hk, hle, hmax, ?_, ?_⟩
    · rw [List.insert_of_not_mem hbwm] at hperm
      have hmid : (List.range' cursor (c' - cursor) ++ wm').Perm
          (b :: (wm ++ okBlocks (rest.take k))) := by simpa using hperm
      have hgoal : okBlocks ((DoneMsg.ok b :: rest).take (k + 1)) =
          b :: okBlocks (rest.take k) := by
        simp [okBlocks]
      rw [hgoal]
      exact hmid.trans List.perm_middle.symm
    · have hstep := @coordSteps_ok last cursor wm hnlt hnmem b rest
      rcases hexit with ⟨heq, h⟩ | ⟨heq, hk2, hc1, hc2⟩ | ⟨e, heq, hc1, hc2, hin⟩
      · exact Or.inl ⟨hstep.trans heq, h⟩
      · exact Or.inr (Or.inl ⟨hstep.trans heq, by simpa using hk2, hc1, hc2⟩)
      · exact Or.inr (Or.inr ⟨e, hstep.trans heq, hc1, hc2, List.mem_cons_of_mem _ hin⟩)
  | case5 cursor wm hnlt hnmem e rest =>
    intro _
    refine ⟨cursor, wm, 0, Nat.zero_le _, Nat.le_refl _, Nat.le_max_left _ _, ?_,
      Or.inr (Or.inr ⟨e, coordSteps_fail hnlt hnmem e rest, by omega, hnmem,
        List.mem_cons_self _ _⟩)⟩
    simp [okBlocks]

/-- When the successful completions are exactly a permutation of the
segment's blocks, the coordinator loop terminates successfully with cursor
`last + 1` and an empty `waitMap`. -/
theorem coordSteps_perm_success {first last : Nat} {bs : List Nat}
    (hfl : first ≤ last)
    (hperm : bs.Perm (List.range' first (last + 1 - first))) :
    coordSteps last first [] (bs.map .ok) = .success (last + 1) [] := by
  have hbs : bs.Nodup := hperm.symm.nodup (List.nodup_range' _ _)
  have hnd : (([] : List Nat) ++ okBlocks (bs.map .ok)).Nodup := by
    rw [List.nil_append, okBlocks_map_ok]
    exact hbs
  obtain ⟨c', wm', k, hk, hle, hmax, hperm2, hexit⟩ :=
    coordSteps_run last first [] (bs.map .ok) hnd
  have hlen : bs.length = last + 1 - first := by
    have := hperm.length_eq
    simpa [List.length_range'] using this
  have htake : okBlocks ((bs.map DoneMsg.ok).take k) = bs.take k := by
    rw [← List.map_take, okBlocks_map_ok]
  rcases hexit with ⟨heq, hlt⟩ | ⟨heq, hkl, hcl, hcw⟩ | ⟨e, _, _, _, hmem⟩
  · -- success: cursor is exactly last + 1 and the waitMap is empty
    have hc : c' = last + 1 := by omega
    subst hc
    rw [htake] at hperm2
    have hplen := hperm2.length_eq
    simp only [List.length_append, List.length_range', List.nil_append,
      List.length_take] at hplen
    have hkb : k ≤ bs.length := by simpa [List.length_map] using hk
    have hwm : wm'.length = 0 := by omega
    have hwm' : wm' = [] := List.eq_nil_of_length_eq_zero hwm
    rw [hwm'] at heq
    exact heq
  · -- stuck is impossible: the cursor's block was delivered but never consumed
    exfalso
    have hkbs : k = bs.length := by simpa [List.length_map] using hkl
    have htake' : okBlocks ((bs.map DoneMsg.ok).take k) = bs := by
      rw [htake, hkbs, List.take_length]
    rw [htake'] at hperm2
    have hcmem : c' ∈ List.range' first (last + 1 - first) :=
      mem_range'_iff.mpr ⟨hle, by omega⟩
    have : c' ∈ List.range' first (c' - first) ++ wm' :=
      (hperm2.trans hperm).mem_iff.mpr (by simpa using hcmem)
    rcases List.mem_append.mp this with h | h
    · have := mem_range'_iff.mp h
      omega
    · exact hcw h
  · -- failed is impossible: every record is a success
    exfalso
    obtain ⟨b, _, hbe⟩ := List.mem_map.mp hmem
    cases hbe

/-- C1: over any arrival order of the segment's completions, the
coordinator's cursor reaches `last + 1` with an empty pending set
(`waitMap`) on success, and whenever the coordinator is about to block
after any prefix of arrivals, every block the cursor has passed was
already observed complete — reported milestones are a contiguous
ascending prefix of the range. -/
theorem coordinator_ordered_prefix_and_empty_waitmap
    (first last : Nat) (bs : List Nat)
    (hfl : first ≤ last)
    (hperm : bs.Perm (List.range' first (last + 1 - first))) :
    coordSteps last first [] (bs.map .ok) = .success (last + 1) [] ∧
    (∀ m c' wm', coordSteps last first [] ((bs.take m).map .ok) = .stuck c' wm' →
      ∀ x, first ≤ x → x < c' → x ∈ bs.take m) := by
  refine ⟨coordSteps_perm_success hfl hperm, ?_⟩
  intro m c' wm' hstuck x hx1 hx2
  have hbs : bs.Nodup := hperm.symm.nodup (List.nodup_range' _ _)
  have hndtake : (([] : List Nat) ++ okBlocks ((bs.take m).map .ok)).Nodup := by
    rw [List.nil_append, okBlocks_map_ok]
    exact hbs.sublist (List.take_sublist m bs)
  obtain ⟨c'', wm'', k, hk, hle, hmax, hperm2, hexit⟩ :=
    coordSteps_run last first [] ((bs.take m).map .ok) hndtake
  rcases hexit with ⟨heq, _⟩ | ⟨heq, hkl, _, _⟩ | ⟨e, heq, _, _, _⟩
  · rw [heq] at hstuck
    cases hstuck
  · rw [heq] at hstuck
    injection hstuck with h1 h2
    have hkbs : k = (bs.take m).length := by simpa [List.length_map] using hkl
    have htake' : okBlocks (((bs.take m).map DoneMsg.ok).take k) = bs.take m := by
      rw [← List.map_take, okBlocks_map_ok, hkbs, List.take_length]
    rw [htake'] at hperm2
    have hx : x ∈ List.range' first (c'' - first) := mem_range'_iff.mpr ⟨hx1, by omega⟩
    have hmem2 : x ∈ ([] : List Nat) ++ bs.take m :=
      hperm2.mem_iff.mp (List.mem_append.mpr (Or.inl hx))
    simpa using hmem2
  · rw [heq] at hstuck
    cases hstuck

theorem coordinator_ordered_prefix_and_empty_waitmap_witness :
    ([2, 3, 1] : List Nat).Perm (List.range' 1 3) ∧
    coordSteps 3 1 [] ([2, 3, 1].map .ok) = .success 4 [] := by
  have hp : ([2, 3, 1] : List Nat).Perm (List.range' 1 3) := by decide
  exact ⟨hp, (coordinator_ordered_prefix_and_empty_waitmap 1 3 [2, 3, 1]
    (by decide) hp).1⟩

theorem execBlockLoop_no_error (pool : SubstateTaskPool) (block : Nat)
    (hcb : ∀ tx s, pool.TaskFunc block tx s pool.view = none) :
    ∀ (txs : List (Nat × Substate)) (numTx : Nat),
      (execBlockLoop pool block numTx txs).2.1 = none := by
  intro txs
  induction txs with
  | nil => intro numTx; rfl
  | cons p rest ih =>
    intro numTx
    obtain ⟨tx, substate⟩ := p
    by_cases hsk : txSkipped pool.Config substate = true
    · simp only [execBlockLoop, hsk, if_true]
      exact ih numTx
    · have hskf : txSkipped pool.Config substate = false := by simpa using hsk
      simp only [execBlockLoop, hskf, Bool.false_eq_true, if_false, hcb tx substate]
      exact ih (numTx + 1)

theorem executeBlock_err_none (pool : SubstateTaskPool)
    (hcb : ∀ b tx s v, pool.TaskFunc b tx s v = none) (b : Nat) :
    (ExecuteBlock pool b).2 = none := by
  unfold ExecuteBlock
  exact execBlockLoop_no_error pool b (fun tx s => hcb b tx s pool.view) (pool.DB b) 0

/-- C4: with a callback that always succeeds, the coordinator finishes the
whole segment with no error for every arrival order of the completions
(hence for every worker count), and the final transaction counter is the
sum of the per-block counts `ExecuteBlock` returns over `[First, Last]`,
with the block counter equal to the segment length. -/
theorem executeSegment_success_counters
    (pool : SubstateTaskPool) (segment : BlockSegment) (order : List Nat)
    (hcb : ∀ b tx s v, pool.TaskFunc b tx s v = none)
    (hfl : segment.First ≤ segment.Last)
    (hperm : order.Perm (List.range' segment.First (segment.Last + 1 - segment.First))) :
    ExecuteSegmentRun pool segment order = .success (segment.Last + 1) [] ∧
    (segCounters pool order).totalNumTx =
      ((List.range' segment.First (segment.Last + 1 - segment.First)).map
        (fun b => (ExecuteBlock pool b).1)).sum ∧
    (segCounters pool order).totalNumBlock = segment.Last + 1 - segment.First := by
  have hmsg : order.map (workerMsg pool) = order.map .ok := by
    apply List.map_congr_left
    intro b _
    unfold workerMsg
    rw [executeBlock_err_none pool hcb b]
  refine ⟨?_, ?_, ?_⟩
  · unfold ExecuteSegmentRun
    rw [hmsg]
    exact coordSteps_perm_success hfl hperm
  · unfold segCounters
    rw [segCounters_foldl]
    simpa using (hperm.map (fun b => (ExecuteBlock pool b).1)).sum_eq
  · unfold segCounters
    rw [segCounters_foldl]
    simpa [List.length_range'] using hperm.length_eq

theorem executeSegment_success_counters_witness :
    ExecuteSegmentRun c4Pool ⟨10, 12⟩ [11, 10, 12] = .success 13 [] ∧
    (segCounters c4Pool [11, 10, 12]).totalNumTx = 4 := by
  have h := executeSegment_success_counters c4Pool ⟨10, 12⟩ [11, 10, 12]
    (fun _ _ _ _ => rfl) (by decide) (by decide)
  refine ⟨h.1, ?_⟩
  rw [h.2.1]
  rfl

/-! ## Theorems about the throughput report cadence -/

/-- C8 counterexample: at cursor 10 — a multiple of 10 but not of 10,000 —
with 6 seconds elapsed since the last report, the claim's first cadence
tier (multiple of 10 and more than 5s) demands a report, but the code's
first tier is `block%10000 == 0 && sec > lastSec+5` and no report fires. -/
theorem shouldReport_first_tier_differs :
    shouldReportClaim 20 10 6 0 = true ∧ shouldReport 20 10 6 0 = false := by
  constructor <;> norm_num [shouldReportClaim, shouldReport]

/-- C8 amended: the coordinator's per-wait report fires exactly when the
cursor reached the final block, or the cursor is a multiple of 10,000 and
more than 5s elapsed since the last report, or a multiple of 1,000 and
more than 10s, or a multiple of 100 and more than 20s, or a multiple of 10
and more than 40s, or unconditionally after more than 60s; each report
emits the deltas since the previous report and resets the baseline, and
otherwise the baseline is unchanged and nothing is emitted. -/
theorem reportStep_cadence (last block : Nat) (sec : ℚ) (nb nt : Nat) (st : ReportState) :
    (shouldReport last block sec st.lastSec = true ↔
      (block = last ∨ (block % 10000 = 0 ∧ st.lastSec + 5 < sec) ∨
        (block % 1000 = 0 ∧ st.lastSec + 10 < sec) ∨
        (block % 100 = 0 ∧ st.lastSec + 20 < sec) ∨
        (block % 10 = 0 ∧ st.lastSec + 40 < sec) ∨ st.lastSec + 60 < sec)) ∧
    (shouldReport last block sec st.lastSec = true →
      reportStep last block sec nb nt st =
        (⟨sec, nb, nt⟩, some ⟨nb - st.lastNumBlock, nt - st.lastNumTx, sec - st.lastSec⟩)) ∧
    (shouldReport last block sec st.lastSec = false →
      reportStep last block sec nb nt st = (st, none)) := by
  refine ⟨?_, ?_, ?_⟩
  · simp only [shouldReport, Bool.or_eq_true, Bool.and_eq_true, beq_iff_eq,
      decide_eq_true_eq, Nat.beq_eq_true_eq]
    tauto
  · intro h
    simp [reportStep, h]
  · intro h
    simp [reportStep, h]

theorem reportStep_cadence_witness :
    shouldReport 20 10000 6 0 = true ∧
    reportStep 20 10000 6 3 4 ⟨0, 1, 1⟩ = (⟨6, 3, 4⟩, some ⟨2, 3, 6⟩) :=
  by
    refine ⟨by norm_num [shouldReport], ?_⟩
    have h := (reportStep_cadence 20 10000 6 3 4 ⟨0, 1, 1⟩).2.1 (by norm_num [shouldReport])
    simpa using h

end SubstateResearch
